import Mathlib

/-!
Verification of the configuration-validation subsystem of the `hlsclt` tool
(`hlsclt/helper_funcs.py`), a recursive-descent validator/normalizer built
from parser combinators.  The combinator primitives live in `hlsclt/config.py`
and the error class in `hlsclt/classes.py`; those two modules are not part of
the sources at hand, so their definitions below are modelled from the spec's
component contracts and are marked as such.  Everything in `helper_funcs.py`
(the schema `config_parser`, the driver `load_config`, and
`find_solution_num`) is translated directly from that source file.
-/

namespace Hlsclt

/-- A segment of a field path: a mapping key or a sequence index. -/
inductive Seg where
  | key (k : String)
  | idx (i : Nat)
deriving DecidableEq

/-- Modelled from the spec (Data Model): a raw document value is an untyped
tagged union over strings, integers, sequences, mappings, and the documented
"absent" sentinel that `parse_dict` passes for a missing key. -/
inductive RawValue where
  | str (s : String)
  | int (n : Int)
  | list (elems : List RawValue)
  | dict (entries : List (String × RawValue))
  | absent

/-- A validated, typed result value; the output record of a parse is the
`dict` variant holding the named field results in schema order. -/
inductive Typed where
  | str (s : String)
  | int (n : Int)
  | list (elems : List Typed)
  | dict (entries : List (String × Typed))

/-- Modelled from the spec (Error Handling): the error taxonomy
{TypeMismatch, ChoiceViolation, MissingRequiredField}. -/
inductive ErrKind where
  | typeMismatch
  | choiceViolation
  | missingRequired
deriving DecidableEq

/-- Modelled from the spec (`hlsclt/classes.py` is not in the sources): an
immutable error value carrying a field path and a human-readable message. -/
structure Error where
  path : List Seg
  kind : ErrKind
  msg : String

/-- A parser maps a field path and a raw value to a typed result or an
`Error` (spec: `parse(path, value) -> Result<Typed, Error>`). -/
abbrev Parser := List Seg → RawValue → Except Error Typed

/-- First value stored under `name`, or the absent sentinel. -/
def findVal (name : String) : List (String × RawValue) → RawValue
  | [] => .absent
  | (k, v) :: rest => if k = name then v else findVal name rest

/-- Look a key up in a raw mapping; anything else has no keys. -/
def lookupRaw (name : String) : RawValue → RawValue
  | .dict entries => findVal name entries
  | _ => .absent

/-- Whether a raw mapping contains the key `name`. -/
def hasEntry (name : String) : List (String × RawValue) → Bool
  | [] => false
  | (k, _) :: rest => if k = name then true else hasEntry name rest

/-- Whether the raw document contains the key `name` (only mappings do). -/
def rawHas (name : String) : RawValue → Bool
  | .dict entries => hasEntry name entries
  | _ => false

/-- Modelled from the spec (`parse_string` in the missing `hlsclt/config.py`):
succeeds iff the value is textual; a missing mandatory value surfaces as a
missing-required-field error (spec 4.3), any other shape as a type mismatch. -/
def parse_string (path : List Seg) : RawValue → Except Error Typed
  | .str s => .ok (.str s)
  | .absent => .error ⟨path, .missingRequired, "missing required field"⟩
  | _ => .error ⟨path, .typeMismatch, "expected string"⟩

/-- Modelled from the spec (`parse_int` in the missing `hlsclt/config.py`):
succeeds iff the value is an integral number. -/
def parse_int (path : List Seg) : RawValue → Except Error Typed
  | .int n => .ok (.int n)
  | .absent => .error ⟨path, .missingRequired, "missing required field"⟩
  | _ => .error ⟨path, .typeMismatch, "expected integer"⟩

/-- Element loop of `parse_list`: apply the element parser at path
`path ++ [idx i]` to each element in order, failing on the first failure. -/
def parseElems (p : Parser) (path : List Seg) : Nat → List RawValue → Except Error (List Typed)
  | _, [] => .ok []
  | i, v :: rest =>
    match p (path ++ [.idx i]) v with
    | .error e => .error e
    | .ok t =>
      match parseElems p path (i + 1) rest with
      | .error e => .error e
      | .ok ts => .ok (t :: ts)

/-- Modelled from the spec (`parse_list` in the missing `hlsclt/config.py`):
succeeds iff the value is an ordered sequence; applies the element parser to
each element at path `path ++ [index]`, fail-fast, no partial list. -/
def parse_list (p : Parser) : Parser := fun path v =>
  match v with
  | .list elems =>
    match parseElems p path 0 elems with
    | .error e => .error e
    | .ok ts => .ok (.list ts)
  | .absent => .error ⟨path, .missingRequired, "missing required field"⟩
  | _ => .error ⟨path, .typeMismatch, "expected list"⟩

/-- Modelled from the spec (`parse_choice` in the missing `hlsclt/config.py`):
succeeds iff the value equals one of the given literal strings
(case-sensitive exact match); otherwise a choice-violation error. -/
def parse_choice (lits : List String) : Parser := fun path v =>
  match v with
  | .str s =>
    if s ∈ lits then .ok (.str s)
    else .error ⟨path, .choiceViolation, "value not in the allowed set"⟩
  | .absent => .error ⟨path, .missingRequired, "missing required field"⟩
  | _ => .error ⟨path, .choiceViolation, "value not in the allowed set"⟩

/-- Modelled from the spec (`parse_default` in the missing
`hlsclt/config.py`): never inspects the value; always succeeds and supplies
the constant as though it were present. -/
def parse_default (c : Typed) : Parser := fun _ _ => .ok c

/-- Modelled from the spec (`parse_one_of` in the missing `hlsclt/config.py`):
tries the parsers in order and returns the first success; if a parser fails
and there is a next one, the first error is discarded; if all fail, the last
parser's error is returned. -/
def parse_one_of : List Parser → Parser
  | [] => fun path _ => .error ⟨path, .typeMismatch, "no alternatives"⟩
  | [p] => p
  | p :: q :: rest => fun path v =>
    match p path v with
    | .ok t => .ok t
    | .error _ => parse_one_of (q :: rest) path v

/-- Field loop of `parse_dict`: for each `(name, parser)` of the schema in
declaration order, look the name up in the document (absent sentinel when
missing) and apply the parser at path `path ++ [key name]`; the first field
failure aborts the whole loop. -/
def parseFields (path : List Seg) (doc : RawValue) : List (String × Parser) → Except Error (List (String × Typed))
  | [] => .ok []
  | (name, p) :: rest =>
    match p (path ++ [.key name]) (lookupRaw name doc) with
    | .error e => .error e
    | .ok v =>
      match parseFields path doc rest with
      | .error e => .error e
      | .ok vs => .ok ((name, v) :: vs)

/-- Modelled from the spec (`parse_dict` in the missing `hlsclt/config.py`):
structural validation of a mapping against a schema of named field parsers,
fail-fast over schema declaration order, assembling the named results into
the output record. -/
def parse_dict (schema : List (String × Parser)) : Parser := fun path v =>
  match v with
  | .dict _ =>
    match parseFields path v schema with
    | .error e => .error e
    | .ok entries => .ok (.dict entries)
  | .absent => .error ⟨path, .missingRequired, "missing required field"⟩
  | _ => .error ⟨path, .typeMismatch, "expected mapping"⟩

/-- The schema of `config_parser` (`helper_funcs.py`), transliterated field by
field from the source.  `cwd` stands for `os.path.relpath(".", "..")`, the
current working directory's name at schema-construction time. -/
def configSchema (cwd : String) : List (String × Parser) :=
  [("project_name", parse_one_of [parse_string, parse_default (.str ("proj_" ++ cwd))]),
   ("top_level_function_name", parse_string),
   ("src_dir_name", parse_one_of [parse_string, parse_default (.str "src/")]),
   ("tb_dir_name", parse_one_of [parse_string, parse_default (.str "tb/")]),
   ("src_files", parse_one_of [parse_list parse_string, parse_default (.list [])]),
   ("tb_files", parse_one_of [parse_list parse_string, parse_default (.list [])]),
   ("compiler", parse_one_of [parse_choice ["gcc", "clang"], parse_default (.str "gcc")]),
   ("part_name", parse_string),
   ("clock_period", parse_int),
   ("language", parse_one_of [parse_choice ["vhdl", "verilog"], parse_default (.str "vhdl")])]

/-- `config_parser` from `helper_funcs.py`: a single `parse_dict` instance
over the fixed schema. -/
def configParser (cwd : String) : Parser := parse_dict (configSchema cwd)

/-- Modelled from the spec (`get_config_parser`, referenced by `load_config`
but absent from the sources): invokes the schema's `parse_dict` with path
`[]` and the decoded document; the source-file name is not consulted. -/
def getConfigParser (cwd : String) : String → RawValue → Except Error Typed :=
  fun _sourceName doc => configParser cwd [] doc

/-- `load_config` from `helper_funcs.py`: the document is read and decoded by
an external collaborator (modelled as the `doc` input); the parse result is
returned on success and the `Error` is raised (surfaced) on failure. -/
def load_config (cwd sourceName : String) (doc : RawValue) : Except Error Typed :=
  match getConfigParser cwd sourceName doc with
  | .error e => .error e
  | .ok c => .ok c

/-- `find_solution_num` from `helper_funcs.py`: `paths` stands for the result
of `glob(project_name + "/solution*/")` and `keep` for `ctx.params["keep"]`
(`none` when the key is missing, in which case the `KeyError` is swallowed). -/
def find_solution_num (paths : List String) (keep : Option Nat) : Nat :=
  let n := paths.length
  if n = 0 then 1
  else
    match keep with
    | some k => if k ≠ 0 then n + 1 else n
    | none => n

mutual
/-- Re-encode a typed result as a raw document with every field explicit. -/
def encode : Typed → RawValue
  | .str s => .str s
  | .int n => .int n
  | .list elems => .list (encodeList elems)
  | .dict entries => .dict (encodeEntries entries)
def encodeList : List Typed → List RawValue
  | [] => []
  | t :: ts => encode t :: encodeList ts
def encodeEntries : List (String × Typed) → List (String × RawValue)
  | [] => []
  | (n, t) :: rest => (n, encode t) :: encodeEntries rest
end

/-- First value stored under `name` in a typed record. -/
def findTyped (name : String) : List (String × Typed) → Option Typed
  | [] => none
  | (k, v) :: rest => if k = name then some v else findTyped name rest

/-- Look a field up in a typed output record. -/
def lookupT (name : String) : Typed → Option Typed
  | .dict entries => findTyped name entries
  | _ => none

/-- Number of named fields of a typed output record. -/
def numFields : Typed → Nat
  | .dict entries => entries.length
  | _ => 0

/-- Remove every entry stored under `name`. -/
def eraseEntries (name : String) : List (String × RawValue) → List (String × RawValue)
  | [] => []
  | (k, v) :: rest =>
    if k = name then eraseEntries name rest else (k, v) :: eraseEntries name rest

/-- Remove the key `name` from a raw mapping. -/
def eraseKey (name : String) : RawValue → RawValue
  | .dict entries => .dict (eraseEntries name entries)
  | v => v

/-- A fully explicit, fully valid raw document naming all ten schema fields. -/
def fullDoc : RawValue :=
  .dict [("project_name", .str "prj"),
         ("top_level_function_name", .str "top"),
         ("src_dir_name", .str "srcd/"),
         ("tb_dir_name", .str "tbd/"),
         ("src_files", .list [.str "a.c"]),
         ("tb_files", .list [.str "t.c"]),
         ("compiler", .str "clang"),
         ("part_name", .str "part1"),
         ("clock_period", .int 5),
         ("language", .str "verilog")]

/-- The typed record that `configParser` produces from `fullDoc`. -/
def fullConf : Typed :=
  .dict [("project_name", .str "prj"),
         ("top_level_function_name", .str "top"),
         ("src_dir_name", .str "srcd/"),
         ("tb_dir_name", .str "tbd/"),
         ("src_files", .list [.str "a.c"]),
         ("tb_files", .list [.str "t.c"]),
         ("compiler", .str "clang"),
         ("part_name", .str "part1"),
         ("clock_period", .int 5),
         ("language", .str "verilog")]

/-- Inversion of one step of the `parse_dict` field loop. -/
theorem parseFields_cons_ok {path : List Seg} {doc : RawValue} {n : String}
    {p : Parser} {rest : List (String × Parser)} {out : List (String × Typed)} :
    parseFields path doc ((n, p) :: rest) = .ok out ↔
      ∃ v vs, p (path ++ [Seg.key n]) (lookupRaw n doc) = .ok v ∧
        parseFields path doc rest = .ok vs ∧ out = (n, v) :: vs := by
  cases hp : p (path ++ [Seg.key n]) (lookupRaw n doc) with
  | error e => simp [parseFields, hp]
  | ok v =>
    cases hr : parseFields path doc rest with
    | error e => simp [parseFields, hp, hr]
    | ok vs =>
      simp only [parseFields, hp, hr, Except.ok.injEq]
      constructor
      · intro h
        exact ⟨v, vs, rfl, rfl, h.symm⟩
      · rintro ⟨v2, vs2, hv2, hvs2, rfl⟩
        cases hv2
        cases hvs2
        rfl

/-- If some schema field's parser rejects the value looked up for it, the
whole field loop ends in an error. -/
theorem parseFields_field_error {path : List Seg} {doc : RawValue}
    {schema : List (String × Parser)} {n : String} {p : Parser} {e : Error}
    (hmem : (n, p) ∈ schema)
    (hfail : p (path ++ [Seg.key n]) (lookupRaw n doc) = .error e) :
    ∃ e2, parseFields path doc schema = .error e2 := by
  induction schema with
  | nil => cases hmem
  | cons head rest ih =>
    obtain ⟨hn, pn⟩ := head
    rcases List.mem_cons.mp hmem with heq | hmem2
    · cases heq
      exact ⟨e, by simp [parseFields, hfail]⟩
    · cases hq : pn (path ++ [Seg.key hn]) (lookupRaw hn doc) with
      | error e2 => exact ⟨e2, by simp [parseFields, hq]⟩
      | ok v =>
        obtain ⟨e2, he2⟩ := ih hmem2
        exact ⟨e2, by simp [parseFields, hq, he2]⟩

/-- A key the document does not contain looks up to the absent sentinel. -/
theorem lookupRaw_absent {name : String} {d : RawValue}
    (h : rawHas name d = false) : lookupRaw name d = .absent := by
  cases d with
  | dict entries =>
    simp only [rawHas] at h
    simp only [lookupRaw]
    induction entries with
    | nil => rfl
    | cons kv rest ih =>
      obtain ⟨k, v⟩ := kv
      simp only [hasEntry] at h
      simp only [findVal]
      by_cases hk : k = name
      · simp [hk] at h
      · simp only [hk, if_false, ite_false] at h ⊢
        exact ih h
  | str s => rfl
  | int n => rfl
  | list elems => rfl
  | absent => rfl

/-- C6: `parse_dict` with schema `{a: parse_int, b: parse_one_of(parse_string,
parse_default("x"))}` maps `{"a": 5}` to the record `{a: 5, b: "x"}`, and on
`{"a": "nope"}` fails at path `[a]` with a type-mismatch error without ever
invoking the parser for the later field `b` (the second conjunct holds for
every parser `pb` in `b`'s position, so `b`'s parser cannot influence the
result). -/
theorem parse_dict_example_fail_fast :
    parse_dict [("a", parse_int), ("b", parse_one_of [parse_string, parse_default (.str "x")])] []
        (.dict [("a", .int 5)]) = .ok (.dict [("a", .int 5), ("b", .str "x")]) ∧
    ∀ pb : Parser, parse_dict [("a", parse_int), ("b", pb)] [] (.dict [("a", .str "nope")]) =
      .error ⟨[Seg.key "a"], .typeMismatch, "expected integer"⟩ :=
  ⟨rfl, fun _ => rfl⟩

/-- Closed instance of C6's fail-fast conjunct at a concrete parser for `b`. -/
theorem parse_dict_example_fail_fast_witness :
    parse_dict [("a", parse_int), ("b", parse_string)] [] (.dict [("a", .str "nope")]) =
      .error ⟨[Seg.key "a"], .typeMismatch, "expected integer"⟩ :=
  parse_dict_example_fail_fast.2 parse_string

/-- The element loop fails with the failing element's error as soon as every
earlier element (at shifted indices) succeeds. -/
theorem parseElems_append_error (p : Parser) (path : List Seg) :
    ∀ (pre : List RawValue) (i : Nat) (x : RawValue) (suf : List RawValue) (e : Error),
      (∀ j (h : j < pre.length), ∃ t, p (path ++ [Seg.idx (i + j)]) (pre.get ⟨j, h⟩) = .ok t) →
      p (path ++ [Seg.idx (i + pre.length)]) x = .error e →
      parseElems p path i (pre ++ x :: suf) = .error e := by
  intro pre
  induction pre with
  | nil =>
    intro i x suf e _ hx
    simp only [List.length_nil, Nat.add_zero] at hx
    simp [parseElems, hx]
  | cons q pre2 ih =>
    intro i x suf e hok hx
    obtain ⟨t, ht⟩ := hok 0 (by simp)
    simp only [Nat.add_zero, List.get] at ht
    have hrec : parseElems p path (i + 1) (pre2 ++ x :: suf) = .error e := by
      apply ih (i + 1) x suf e
      · intro j hj
        obtain ⟨t2, ht2⟩ := hok (j + 1) (by simpa using Nat.succ_lt_succ hj)
        refine ⟨t2, ?_⟩
        have harith : i + (j + 1) = i + 1 + j := by omega
        rw [harith] at ht2
        simpa [List.get] using ht2
      · have harith : i + (q :: pre2).length = i + 1 + pre2.length := by
          simp [List.length_cons]; omega
        rw [harith] at hx
        exact hx
    simp [parseElems, ht, hrec]

/-- C7: `parse_list(p)` applies `p` to each element at path `path ++ [index]`
in order and, as soon as an element fails while every earlier one succeeded,
returns that element's error (no partial list is returned); in particular
`parse_list(parse_string)` on `["a", "b", 3]` fails with the error at path
`[2]` rather than yielding `["a", "b"]`. -/
theorem parse_list_fail_fast :
    (∀ (p : Parser) (path : List Seg) (pre : List RawValue) (x : RawValue)
        (suf : List RawValue) (e : Error),
      (∀ j (h : j < pre.length), ∃ t, p (path ++ [Seg.idx j]) (pre.get ⟨j, h⟩) = .ok t) →
      p (path ++ [Seg.idx pre.length]) x = .error e →
      parse_list p path (.list (pre ++ x :: suf)) = .error e) ∧
    parse_list parse_string [] (.list [.str "a", .str "b", .int 3]) =
      .error ⟨[Seg.idx 2], .typeMismatch, "expected string"⟩ := by
  constructor
  · intro p path pre x suf e hok hx
    have h0 : parseElems p path 0 (pre ++ x :: suf) = .error e := by
      apply parseElems_append_error p path pre 0 x suf e
      · intro j hj
        simpa [Nat.zero_add] using hok j hj
      · simpa [Nat.zero_add] using hx
    simp [parse_list, h0]
  · rfl

/-- Closed instance of C7's general conjunct: a failure at index 1 after a
success at index 0. -/
theorem parse_list_fail_fast_witness :
    parse_list parse_string [] (.list [.str "q", .int 0, .str "z"]) =
      .error ⟨[Seg.idx 1], .typeMismatch, "expected string"⟩ := by
  apply parse_list_fail_fast.1 parse_string [] [.str "q"] (.int 0) [.str "z"]
  · intro j h
    match j, h with
    | 0, _ => exact ⟨.str "q", rfl⟩
  · rfl

/-- C9: a parse is a pure function of the document's content (the model is a
function, so equal documents give equal results and nothing else is read),
and it produces exactly one of a typed record or an error, never both and
never neither. -/
theorem parse_pure_deterministic :
    ∀ (cwd : String) (path : List Seg) (d d2 : RawValue),
      (d = d2 → configParser cwd path d = configParser cwd path d2) ∧
      ((∃ c, configParser cwd path d = .ok c) ↔ ¬ ∃ e, configParser cwd path d = .error e) := by
  intro cwd path d d2
  refine ⟨fun h => by rw [h], ?_⟩
  cases h : configParser cwd path d with
  | ok c => simp
  | error e => simp

/-- Closed instance of C9 at the empty document. -/
theorem parse_pure_deterministic_witness :
    configParser "x" [] (.dict []) = configParser "x" [] (.dict []) :=
  (parse_pure_deterministic "x" [] (.dict []) (.dict [])).1 rfl

/-- C3: `load_config` hands the externally decoded document to the schema's
`parse_dict` at path `[]` and returns exactly that parse outcome: the typed
record on success, the surfaced `Error` on failure, and nothing else
(`get_config_parser` and the document decoding are modelled from the spec,
as they are not part of the sources at hand). -/
theorem load_config_spec :
    ∀ (cwd sourceName : String) (doc : RawValue),
      load_config cwd sourceName doc = configParser cwd [] doc ∧
      ((∃ c, load_config cwd sourceName doc = .ok c) ↔
        ¬ ∃ e, load_config cwd sourceName doc = .error e) := by
  intro cwd nm doc
  have h1 : load_config cwd nm doc = configParser cwd [] doc := by
    unfold load_config getConfigParser
    cases configParser cwd [] doc <;> rfl
  refine ⟨h1, ?_⟩
  rw [h1]
  cases h : configParser cwd [] doc with
  | ok c => simp
  | error e => simp

/-- Closed instance of C3 at a concrete source name and document. -/
theorem load_config_spec_witness :
    load_config "w" "hls_config.yaml" fullDoc = configParser "w" [] fullDoc :=
  (load_config_spec "w" "hls_config.yaml" fullDoc).1

/-- C10: `find_solution_num` always answers at least 1; with no matching
solution directories it answers exactly 1 whatever `keep` holds; and the
`keep` increment (with a missing `keep` key silently ignored) applies only
when at least one solution directory exists. -/
theorem find_solution_num_spec :
    ∀ (paths : List String) (keep : Option Nat),
      1 ≤ find_solution_num paths keep ∧
      (paths = [] → find_solution_num paths keep = 1) ∧
      (∀ k, paths ≠ [] → keep = some k → k ≠ 0 →
        find_solution_num paths keep = paths.length + 1) ∧
      (paths ≠ [] → (keep = none ∨ keep = some 0) →
        find_solution_num paths keep = paths.length) := by
  intro paths keep
  cases paths with
  | nil =>
    simp [find_solution_num]
  | cons a rest =>
    cases keep with
    | none => simp [find_solution_num]
    | some k =>
      by_cases hk : k = 0
      · subst hk
        simp [find_solution_num]
      · simp [find_solution_num, hk]

/-- Closed instance of C10: no solution directories and `keep` set. -/
theorem find_solution_num_spec_witness :
    find_solution_num [] (some 1) = 1 :=
  (find_solution_num_spec [] (some 1)).2.1 rfl

/-- C5: a document without a `project_name` key that parses successfully gets
the dynamic default `proj_<cwd>` computed at schema-construction time from
the working directory's name. -/
theorem project_name_default :
    ∀ (cwd : String) (d : RawValue) (c : Typed),
      rawHas "project_name" d = false → configParser cwd [] d = .ok c →
      lookupT "project_name" c = some (.str ("proj_" ++ cwd)) := by
  intro cwd d c hnk h
  cases d with
  | str s => simp [configParser, parse_dict] at h
  | int n => simp [configParser, parse_dict] at h
  | list l => simp [configParser, parse_dict] at h
  | absent => simp [configParser, parse_dict] at h
  | dict es =>
    simp only [configParser, parse_dict] at h
    cases hf : parseFields [] (.dict es) (configSchema cwd) with
    | error e => rw [hf] at h; cases h
    | ok entries =>
      rw [hf] at h
      injection h with h2
      subst h2
      simp only [configSchema] at hf
      rw [parseFields_cons_ok] at hf
      obtain ⟨v1, vs, hv1, _, rfl⟩ := hf
      rw [lookupRaw_absent hnk] at hv1
      have hval : parse_one_of [parse_string, parse_default (.str ("proj_" ++ cwd))]
          ([] ++ [Seg.key "project_name"]) .absent = .ok (.str ("proj_" ++ cwd)) := rfl
      rw [hval] at hv1
      injection hv1 with hv2
      subst hv2
      simp [lookupT, findTyped]

/-- Closed instance of C5: dropping `project_name` from the fully explicit
document with working-directory name `foo` yields `proj_foo`. -/
theorem project_name_default_witness :
    lookupT "project_name"
        (.dict [("project_name", .str "proj_foo"),
                ("top_level_function_name", .str "top"),
                ("src_dir_name", .str "srcd/"),
                ("tb_dir_name", .str "tbd/"),
                ("src_files", .list [.str "a.c"]),
                ("tb_files", .list [.str "t.c"]),
                ("compiler", .str "clang"),
                ("part_name", .str "part1"),
                ("clock_period", .int 5),
                ("language", .str "verilog")]) = some (.str ("proj_" ++ "foo")) :=
  project_name_default "foo" (eraseKey "project_name" fullDoc)
    (.dict [("project_name", .str "proj_foo"),
            ("top_level_function_name", .str "top"),
            ("src_dir_name", .str "srcd/"),
            ("tb_dir_name", .str "tbd/"),
            ("src_files", .list [.str "a.c"]),
            ("tb_files", .list [.str "t.c"]),
            ("compiler", .str "clang"),
            ("part_name", .str "part1"),
            ("clock_period", .int 5),
            ("language", .str "verilog")]) rfl rfl

/-- If one schema field's parser rejects what the document holds for it, the
whole configuration parse ends in an error, whatever the other fields say. -/
theorem configParser_field_error {cwd : String} {d : RawValue} {name : String}
    {p : Parser} {e : Error}
    (hmem : (name, p) ∈ configSchema cwd)
    (hfail : p ([] ++ [Seg.key name]) (lookupRaw name d) = .error e) :
    ∃ e2, configParser cwd [] d = .error e2 := by
  cases d with
  | dict es =>
    obtain ⟨e2, he2⟩ := parseFields_field_error hmem hfail
    exact ⟨e2, by simp [configParser, parse_dict, he2]⟩
  | str s => exact ⟨⟨[], .typeMismatch, "expected mapping"⟩, rfl⟩
  | int n => exact ⟨⟨[], .typeMismatch, "expected mapping"⟩, rfl⟩
  | list l => exact ⟨⟨[], .typeMismatch, "expected mapping"⟩, rfl⟩
  | absent => exact ⟨⟨[], .missingRequired, "missing required field"⟩, rfl⟩

/-- C2 (amended: the schema names ten fields, not nine): `config_parser` is a
single `parse_dict` instance naming exactly the ten listed fields; the three
fields whose parsers are not wrapped in `parse_one_of(..., parse_default)` —
`top_level_function_name`, `part_name`, `clock_period` — are mandatory (a
document lacking one never parses), while dropping any of the seven
default-wrapped fields from the fully explicit valid document still parses. -/
theorem schema_fields_and_requiredness :
    ∀ cwd : String,
      configParser cwd = parse_dict (configSchema cwd) ∧
      (configSchema cwd).map Prod.fst =
        ["project_name", "top_level_function_name", "src_dir_name", "tb_dir_name",
         "src_files", "tb_files", "compiler", "part_name", "clock_period", "language"] ∧
      (∀ d, rawHas "top_level_function_name" d = false →
        ∃ e, configParser cwd [] d = .error e) ∧
      (∀ d, rawHas "part_name" d = false → ∃ e, configParser cwd [] d = .error e) ∧
      (∀ d, rawHas "clock_period" d = false → ∃ e, configParser cwd [] d = .error e) ∧
      (∀ f, f ∈ (["project_name", "src_dir_name", "tb_dir_name", "src_files",
                  "tb_files", "compiler", "language"] : List String) →
        ∃ c, configParser cwd [] (eraseKey f fullDoc) = .ok c) := by
  intro cwd
  have hmem2 : ("top_level_function_name", parse_string) ∈ configSchema cwd := by
    unfold configSchema
    exact List.mem_cons_of_mem _ (List.mem_cons_self _ _)
  have hmem8 : ("part_name", parse_string) ∈ configSchema cwd := by
    unfold configSchema
    exact List.mem_cons_of_mem _ (List.mem_cons_of_mem _ (List.mem_cons_of_mem _
      (List.mem_cons_of_mem _ (List.mem_cons_of_mem _ (List.mem_cons_of_mem _
        (List.mem_cons_of_mem _ (List.mem_cons_self _ _)))))))
  have hmem9 : ("clock_period", parse_int) ∈ configSchema cwd := by
    unfold configSchema
    exact List.mem_cons_of_mem _ (List.mem_cons_of_mem _ (List.mem_cons_of_mem _
      (List.mem_cons_of_mem _ (List.mem_cons_of_mem _ (List.mem_cons_of_mem _
        (List.mem_cons_of_mem _ (List.mem_cons_of_mem _ (List.mem_cons_self _ _))))))))
  refine ⟨rfl, rfl, ?_, ?_, ?_, ?_⟩
  · intro d h
    exact configParser_field_error hmem2 (by rw [lookupRaw_absent h]; rfl)
  · intro d h
    exact configParser_field_error hmem8 (by rw [lookupRaw_absent h]; rfl)
  · intro d h
    exact configParser_field_error hmem9 (by rw [lookupRaw_absent h]; rfl)
  · intro f hf
    simp only [List.mem_cons, List.not_mem_nil, or_false] at hf
    rcases hf with rfl | rfl | rfl | rfl | rfl | rfl | rfl
    · exact ⟨_, rfl⟩
    · exact ⟨_, rfl⟩
    · exact ⟨_, rfl⟩
    · exact ⟨_, rfl⟩
    · exact ⟨_, rfl⟩
    · exact ⟨_, rfl⟩
    · exact ⟨_, rfl⟩

/-- Closed instance of C2: the empty document lacks the mandatory
`part_name`, so its parse errors. -/
theorem schema_fields_and_requiredness_witness :
    ∃ e, configParser "w" [] (.dict []) = .error e :=
  (schema_fields_and_requiredness "w").2.2.2.1 (.dict []) rfl

/-- Counterexample to C2 as stated: the schema names ten fields, not nine. -/
theorem configSchema_ten_not_nine :
    (configSchema "x").length = 10 ∧ (configSchema "x").length ≠ 9 :=
  ⟨rfl, by decide⟩

/-- C4 (amended): a document without the mandatory `part_name` key never
parses; the error path is `[part_name]` when `part_name` is the first field
in schema order to fail, as in the fully explicit valid document with only
`part_name` removed. -/
theorem part_name_missing_fails :
    (∀ (cwd : String) (d : RawValue), rawHas "part_name" d = false →
      ∃ e, configParser cwd [] d = .error e) ∧
    configParser "x" [] (eraseKey "part_name" fullDoc) =
      .error ⟨[Seg.key "part_name"], .missingRequired, "missing required field"⟩ := by
  constructor
  · intro cwd d h
    have hmem : ("part_name", parse_string) ∈ configSchema cwd := by
      unfold configSchema
      exact List.mem_cons_of_mem _ (List.mem_cons_of_mem _ (List.mem_cons_of_mem _
        (List.mem_cons_of_mem _ (List.mem_cons_of_mem _ (List.mem_cons_of_mem _
          (List.mem_cons_of_mem _ (List.mem_cons_self _ _)))))))
    exact configParser_field_error hmem (by rw [lookupRaw_absent h]; rfl)
  · rfl

/-- Closed instance of C4's general conjunct. -/
theorem part_name_missing_fails_witness :
    ∃ e, configParser "y" [] (.dict [("clock_period", .int 3)]) = .error e :=
  part_name_missing_fails.1 "y" (.dict [("clock_period", .int 3)]) rfl

/-- Counterexample to C4 as stated: the empty document lacks `part_name`, yet
the error path names `top_level_function_name`, the first mandatory field in
schema order, not `part_name`. -/
theorem config_empty_doc_error_path :
    configParser "x" [] (.dict []) =
      .error ⟨[Seg.key "top_level_function_name"], .missingRequired,
              "missing required field"⟩ ∧
    Seg.key "top_level_function_name" ≠ Seg.key "part_name" :=
  ⟨rfl, by decide⟩

/-- C1 (amended): with a `compiler` key present but holding neither `gcc` nor
`clang`, the spec's combinator contracts make the field succeed with the
default: `parse_one_of` discards the choice parser's ChoiceViolation and
falls through to `parse_default("gcc")`, which never fails; hence any
successful parse of such a document records compiler `gcc`, and no
ChoiceViolation is surfaced. -/
theorem compiler_invalid_defaults :
    ∀ (cwd : String) (d : RawValue) (c : Typed) (s : String),
      lookupRaw "compiler" d = .str s → s ≠ "gcc" → s ≠ "clang" →
      (parse_one_of [parse_choice ["gcc", "clang"], parse_default (.str "gcc")]
          [Seg.key "compiler"] (.str s) = .ok (.str "gcc")) ∧
      (configParser cwd [] d = .ok c → lookupT "compiler" c = some (.str "gcc")) := by
  intro cwd d c s hlk h1 h2
  have hone : ∀ pa : List Seg,
      parse_one_of [parse_choice ["gcc", "clang"], parse_default (.str "gcc")] pa (.str s) =
        .ok (.str "gcc") := by
    intro pa
    simp [parse_one_of, parse_choice, parse_default, h1, h2]
  refine ⟨hone _, ?_⟩
  intro hp
  cases d with
  | str s2 => simp [lookupRaw] at hlk
  | int n => simp [lookupRaw] at hlk
  | list l => simp [lookupRaw] at hlk
  | absent => simp [lookupRaw] at hlk
  | dict es =>
    simp only [configParser, parse_dict] at hp
    cases hf : parseFields [] (.dict es) (configSchema cwd) with
    | error e => rw [hf] at hp; cases hp
    | ok entries =>
      rw [hf] at hp
      injection hp with hp2
      subst hp2
      simp only [configSchema] at hf
      rw [parseFields_cons_ok] at hf
      obtain ⟨v1, vs, _, hf, rfl⟩ := hf
      rw [parseFields_cons_ok] at hf
      obtain ⟨v2, vs, _, hf, rfl⟩ := hf
      rw [parseFields_cons_ok] at hf
      obtain ⟨v3, vs, _, hf, rfl⟩ := hf
      rw [parseFields_cons_ok] at hf
      obtain ⟨v4, vs, _, hf, rfl⟩ := hf
      rw [parseFields_cons_ok] at hf
      obtain ⟨v5, vs, _, hf, rfl⟩ := hf
      rw [parseFields_cons_ok] at hf
      obtain ⟨v6, vs, _, hf, rfl⟩ := hf
      rw [parseFields_cons_ok] at hf
      obtain ⟨v7, vs, hv7, hf, rfl⟩ := hf
      rw [hlk, hone _] at hv7
      injection hv7 with hv7e
      subst hv7e
      simp [lookupT, findTyped]

/-- Closed instance of C1's amended second conjunct: the concrete document
with `compiler` set to `icc` parses to a record whose compiler is `gcc`. -/
theorem compiler_invalid_defaults_witness :
    lookupT "compiler"
        (.dict [("project_name", .str "proj_w2"),
                ("top_level_function_name", .str "g"),
                ("src_dir_name", .str "src/"),
                ("tb_dir_name", .str "tb/"),
                ("src_files", .list []),
                ("tb_files", .list []),
                ("compiler", .str "gcc"),
                ("part_name", .str "p2"),
                ("clock_period", .int 7),
                ("language", .str "vhdl")]) = some (.str "gcc") :=
  (compiler_invalid_defaults "w2"
    (.dict [("top_level_function_name", .str "g"), ("part_name", .str "p2"),
            ("clock_period", .int 7), ("compiler", .str "icc")])
    (.dict [("project_name", .str "proj_w2"),
            ("top_level_function_name", .str "g"),
            ("src_dir_name", .str "src/"),
            ("tb_dir_name", .str "tb/"),
            ("src_files", .list []),
            ("tb_files", .list []),
            ("compiler", .str "gcc"),
            ("part_name", .str "p2"),
            ("clock_period", .int 7),
            ("language", .str "vhdl")])
    "icc" rfl (by decide) (by decide)).2 rfl

/-- Counterexample to C1 as stated: a document whose `compiler` is the
invalid `icc` parses successfully, with the default `gcc` substituted — no
ChoiceViolation is reported. -/
theorem compiler_invalid_parses :
    configParser "demo" []
        (.dict [("top_level_function_name", .str "f"), ("part_name", .str "xc7z020"),
                ("clock_period", .int 10), ("compiler", .str "icc")]) =
      .ok (.dict [("project_name", .str "proj_demo"),
                  ("top_level_function_name", .str "f"),
                  ("src_dir_name", .str "src/"),
                  ("tb_dir_name", .str "tb/"),
                  ("src_files", .list []),
                  ("tb_files", .list []),
                  ("compiler", .str "gcc"),
                  ("part_name", .str "xc7z020"),
                  ("clock_period", .int 10),
                  ("language", .str "vhdl")]) := rfl

/-- Every element produced by the string-element loop is a string. -/
theorem parseElems_string_shape :
    ∀ (ws : List RawValue) (pa : List Seg) (i : Nat) (ts : List Typed),
      parseElems parse_string pa i ws = .ok ts → ∀ t ∈ ts, ∃ s, t = Typed.str s := by
  intro ws
  induction ws with
  | nil =>
    intro pa i ts h
    simp only [parseElems] at h
    injection h with h2
    subst h2
    intro t ht
    cases ht
  | cons w ws2 ih =>
    intro pa i ts h
    cases hw : parse_string (pa ++ [Seg.idx i]) w with
    | error e => simp [parseElems, hw] at h
    | ok t0 =>
      cases hr : parseElems parse_string pa (i + 1) ws2 with
      | error e => simp [parseElems, hw, hr] at h
      | ok ts2 =>
        simp only [parseElems, hw, hr] at h
        injection h with h2
        subst h2
        intro t ht
        rcases List.mem_cons.mp ht with rfl | ht2
        · cases w with
          | str s =>
            refine ⟨s, ?_⟩
            simp only [parse_string] at hw
            injection hw with hw2
            exact hw2.symm
          | int n => simp [parse_string] at hw
          | list l => simp [parse_string] at hw
          | dict es2 => simp [parse_string] at hw
          | absent => simp [parse_string] at hw
        · exact ih pa (i + 1) ts2 hr t ht2

/-- The string-element loop accepts the re-encoding of any all-string list,
at any path and any starting index. -/
theorem parseElems_accept_strings :
    ∀ (ts : List Typed), (∀ t ∈ ts, ∃ s, t = Typed.str s) →
      ∀ (pb : List Seg) (i : Nat), parseElems parse_string pb i (encodeList ts) = .ok ts := by
  intro ts
  induction ts with
  | nil => intro _ pb i; rfl
  | cons t ts2 ih =>
    intro hts pb i
    obtain ⟨s, rfl⟩ := hts t (List.mem_cons_self _ _)
    simp only [encodeList, encode]
    simp [parseElems, parse_string,
      ih (fun t2 ht2 => hts t2 (List.mem_cons_of_mem _ ht2)) pb (i + 1)]

/-- Shape of a `parse_one_of(parse_string, parse_default(k))` success: the
result is some string (the document's own, or the default). -/
theorem str_default_ok_shape (k : String) {pa : List Seg} {w : RawValue} {v : Typed}
    (h : parse_one_of [parse_string, parse_default (.str k)] pa w = .ok v) :
    ∃ s, v = Typed.str s := by
  cases w with
  | str s =>
    have hc : parse_one_of [parse_string, parse_default (.str k)] pa (.str s) =
        .ok (.str s) := rfl
    rw [hc] at h
    injection h with h2
    exact ⟨s, h2.symm⟩
  | int n =>
    have hc : parse_one_of [parse_string, parse_default (.str k)] pa (.int n) =
        .ok (.str k) := rfl
    rw [hc] at h
    injection h with h2
    exact ⟨k, h2.symm⟩
  | list l =>
    have hc : parse_one_of [parse_string, parse_default (.str k)] pa (.list l) =
        .ok (.str k) := rfl
    rw [hc] at h
    injection h with h2
    exact ⟨k, h2.symm⟩
  | dict es =>
    have hc : parse_one_of [parse_string, parse_default (.str k)] pa (.dict es) =
        .ok (.str k) := rfl
    rw [hc] at h
    injection h with h2
    exact ⟨k, h2.symm⟩
  | absent =>
    have hc : parse_one_of [parse_string, parse_default (.str k)] pa .absent =
        .ok (.str k) := rfl
    rw [hc] at h
    injection h with h2
    exact ⟨k, h2.symm⟩

/-- Shape of a `parse_one_of(parse_choice(lits), parse_default(defc))`
success: a string from the allowed set, or the default constant. -/
theorem choice_default_ok_shape (lits : List String) (defc : String)
    {pa : List Seg} {w : RawValue} {v : Typed}
    (h : parse_one_of [parse_choice lits, parse_default (.str defc)] pa w = .ok v) :
    (∃ s, v = Typed.str s ∧ s ∈ lits) ∨ v = Typed.str defc := by
  cases w with
  | str s =>
    by_cases hs : s ∈ lits
    · left
      refine ⟨s, ?_, hs⟩
      have hc : parse_one_of [parse_choice lits, parse_default (.str defc)] pa (.str s) =
          .ok (.str s) := by
        simp [parse_one_of, parse_choice, hs]
      rw [hc] at h
      injection h with h2
      exact h2.symm
    · right
      have hc : parse_one_of [parse_choice lits, parse_default (.str defc)] pa (.str s) =
          .ok (.str defc) := by
        simp [parse_one_of, parse_choice, parse_default, hs]
      rw [hc] at h
      injection h with h2
      exact h2.symm
  | int n =>
    right
    have hc : parse_one_of [parse_choice lits, parse_default (.str defc)] pa (.int n) =
        .ok (.str defc) := rfl
    rw [hc] at h
    injection h with h2
    exact h2.symm
  | list l =>
    right
    have hc : parse_one_of [parse_choice lits, parse_default (.str defc)] pa (.list l) =
        .ok (.str defc) := rfl
    rw [hc] at h
    injection h with h2
    exact h2.symm
  | dict es =>
    right
    have hc : parse_one_of [parse_choice lits, parse_default (.str defc)] pa (.dict es) =
        .ok (.str defc) := rfl
    rw [hc] at h
    injection h with h2
    exact h2.symm
  | absent =>
    right
    have hc : parse_one_of [parse_choice lits, parse_default (.str defc)] pa .absent =
        .ok (.str defc) := rfl
    rw [hc] at h
    injection h with h2
    exact h2.symm

/-- Shape of a `parse_one_of(parse_list(parse_string), parse_default([]))`
success: a list all of whose elements are strings. -/
theorem list_default_ok_shape {pa : List Seg} {w : RawValue} {v : Typed}
    (h : parse_one_of [parse_list parse_string, parse_default (.list [])] pa w = .ok v) :
    ∃ ts, v = Typed.list ts ∧ ∀ t ∈ ts, ∃ s, t = Typed.str s := by
  cases w with
  | list ws =>
    cases he : parseElems parse_string pa 0 ws with
    | ok ts =>
      have hc : parse_one_of [parse_list parse_string, parse_default (.list [])] pa (.list ws) =
          .ok (.list ts) := by
        simp [parse_one_of, parse_list, he]
      rw [hc] at h
      injection h with h2
      exact ⟨ts, h2.symm, parseElems_string_shape ws pa 0 ts he⟩
    | error e =>
      have hc : parse_one_of [parse_list parse_string, parse_default (.list [])] pa (.list ws) =
          .ok (.list []) := by
        simp [parse_one_of, parse_list, parse_default, he]
      rw [hc] at h
      injection h with h2
      exact ⟨[], h2.symm, by simp⟩
  | str s =>
    have hc : parse_one_of [parse_list parse_string, parse_default (.list [])] pa (.str s) =
        .ok (.list []) := rfl
    rw [hc] at h
    injection h with h2
    exact ⟨[], h2.symm, by simp⟩
  | int n =>
    have hc : parse_one_of [parse_list parse_string, parse_default (.list [])] pa (.int n) =
        .ok (.list []) := rfl
    rw [hc] at h
    injection h with h2
    exact ⟨[], h2.symm, by simp⟩
  | dict es =>
    have hc : parse_one_of [parse_list parse_string, parse_default (.list [])] pa (.dict es) =
        .ok (.list []) := rfl
    rw [hc] at h
    injection h with h2
    exact ⟨[], h2.symm, by simp⟩
  | absent =>
    have hc : parse_one_of [parse_list parse_string, parse_default (.list [])] pa .absent =
        .ok (.list []) := rfl
    rw [hc] at h
    injection h with h2
    exact ⟨[], h2.symm, by simp⟩

/-- Shape of a plain `parse_string` success. -/
theorem parse_string_ok_shape {pa : List Seg} {w : RawValue} {v : Typed}
    (h : parse_string pa w = .ok v) : ∃ s, v = Typed.str s := by
  cases w with
  | str s =>
    simp only [parse_string] at h
    injection h with h2
    exact ⟨s, h2.symm⟩
  | int n => simp [parse_string] at h
  | list l => simp [parse_string] at h
  | dict es => simp [parse_string] at h
  | absent => simp [parse_string] at h

/-- Shape of a plain `parse_int` success. -/
theorem parse_int_ok_shape {pa : List Seg} {w : RawValue} {v : Typed}
    (h : parse_int pa w = .ok v) : ∃ n, v = Typed.int n := by
  cases w with
  | int n =>
    simp only [parse_int] at h
    injection h with h2
    exact ⟨n, h2.symm⟩
  | str s => simp [parse_int] at h
  | list l => simp [parse_int] at h
  | dict es => simp [parse_int] at h
  | absent => simp [parse_int] at h

/-- The string-or-default field parser accepts any string verbatim. -/
theorem str_default_accepts (k : String) (pb : List Seg) (w : RawValue) (s : String)
    (hw : w = .str s) :
    parse_one_of [parse_string, parse_default (.str k)] pb w = .ok (.str s) := by
  subst hw
  rfl

/-- A plain `parse_string` accepts any string verbatim. -/
theorem string_accepts (pb : List Seg) (w : RawValue) (s : String) (hw : w = .str s) :
    parse_string pb w = .ok (.str s) := by
  subst hw
  rfl

/-- A plain `parse_int` accepts any integer verbatim. -/
theorem int_accepts (pb : List Seg) (w : RawValue) (n : Int) (hw : w = .int n) :
    parse_int pb w = .ok (.int n) := by
  subst hw
  rfl

/-- The choice-or-default field parser accepts any allowed literal verbatim. -/
theorem choice_default_accepts (lits : List String) (defc : String) (pb : List Seg)
    (w : RawValue) (s : String) (hw : w = .str s) (hs : s ∈ lits) :
    parse_one_of [parse_choice lits, parse_default (.str defc)] pb w = .ok (.str s) := by
  subst hw
  simp [parse_one_of, parse_choice, hs]

/-- The string-list-or-default field parser accepts the re-encoding of any
all-string list verbatim. -/
theorem list_default_accepts (pb : List Seg) (w : RawValue) (ts : List Typed)
    (hw : w = .list (encodeList ts)) (hts : ∀ t ∈ ts, ∃ s, t = Typed.str s) :
    parse_one_of [parse_list parse_string, parse_default (.list [])] pb w = .ok (.list ts) := by
  subst hw
  simp [parse_one_of, parse_list, parseElems_accept_strings ts hts pb 0]

/-- Reduction of `parse_dict` on a mapping to its field loop. -/
theorem parse_dict_ok_iff {schema : List (String × Parser)} {path : List Seg}
    {es : List (String × RawValue)} {out : Typed} :
    parse_dict schema path (.dict es) = .ok out ↔
      ∃ entries, parseFields path (.dict es) schema = .ok entries ∧ out = .dict entries := by
  cases hf : parseFields path (.dict es) schema with
  | error e => simp [parse_dict, hf]
  | ok entries =>
    simp only [parse_dict, hf, Except.ok.injEq]
    constructor
    · intro h
      exact ⟨entries, rfl, h.symm⟩
    · rintro ⟨entries2, h2, rfl⟩
      rw [h2]

/-- C8 (amended: the re-encoded document makes all ten fields explicit, not
nine): parsing is idempotent through the schema — re-encoding any
successfully parsed record as a raw document with every field explicit and
parsing it with the same schema returns the identical record. -/
theorem parse_idempotent :
    ∀ (cwd : String) (d : RawValue) (c : Typed),
      configParser cwd [] d = .ok c → configParser cwd [] (encode c) = .ok c := by
  intro cwd d c h
  cases d with
  | str s => simp [configParser, parse_dict] at h
  | int n => simp [configParser, parse_dict] at h
  | list l => simp [configParser, parse_dict] at h
  | absent => simp [configParser, parse_dict] at h
  | dict es =>
    simp only [configParser, parse_dict] at h
    cases hf : parseFields [] (.dict es) (configSchema cwd) with
    | error e => rw [hf] at h; cases h
    | ok entries =>
      rw [hf] at h
      injection h with h2
      subst h2
      simp only [configSchema] at hf
      rw [parseFields_cons_ok] at hf
      obtain ⟨v1, vs, h1, hf, rfl⟩ := hf
      rw [parseFields_cons_ok] at hf
      obtain ⟨v2, vs, h2, hf, rfl⟩ := hf
      rw [parseFields_cons_ok] at hf
      obtain ⟨v3, vs, h3, hf, rfl⟩ := hf
      rw [parseFields_cons_ok] at hf
      obtain ⟨v4, vs, h4, hf, rfl⟩ := hf
      rw [parseFields_cons_ok] at hf
      obtain ⟨v5, vs, h5, hf, rfl⟩ := hf
      rw [parseFields_cons_ok] at hf
      obtain ⟨v6, vs, h6, hf, rfl⟩ := hf
      rw [parseFields_cons_ok] at hf
      obtain ⟨v7, vs, h7, hf, rfl⟩ := hf
      rw [parseFields_cons_ok] at hf
      obtain ⟨v8, vs, h8, hf, rfl⟩ := hf
      rw [parseFields_cons_ok] at hf
      obtain ⟨v9, vs, h9, hf, rfl⟩ := hf
      rw [parseFields_cons_ok] at hf
      obtain ⟨v10, vs, h10, hf, rfl⟩ := hf
      simp only [parseFields] at hf
      injection hf with hf2
      subst hf2
      obtain ⟨s1, rfl⟩ := str_default_ok_shape _ h1
      obtain ⟨s2, rfl⟩ := parse_string_ok_shape h2
      obtain ⟨s3, rfl⟩ := str_default_ok_shape _ h3
      obtain ⟨s4, rfl⟩ := str_default_ok_shape _ h4
      obtain ⟨ts5, rfl, hts5⟩ := list_default_ok_shape h5
      obtain ⟨ts6, rfl, hts6⟩ := list_default_ok_shape h6
      have hs7 : ∃ s, v7 = Typed.str s ∧ s ∈ ["gcc", "clang"] := by
        rcases choice_default_ok_shape ["gcc", "clang"] "gcc" h7 with ⟨s, rfl, hs⟩ | rfl
        · exact ⟨s, rfl, hs⟩
        · exact ⟨"gcc", rfl, by simp⟩
      obtain ⟨s7, rfl, hs7m⟩ := hs7
      obtain ⟨s8, rfl⟩ := parse_string_ok_shape h8
      obtain ⟨n9, rfl⟩ := parse_int_ok_shape h9
      have hs10 : ∃ s, v10 = Typed.str s ∧ s ∈ ["vhdl", "verilog"] := by
        rcases choice_default_ok_shape ["vhdl", "verilog"] "vhdl" h10 with ⟨s, rfl, hs⟩ | rfl
        · exact ⟨s, rfl, hs⟩
        · exact ⟨"vhdl", rfl, by simp⟩
      obtain ⟨s10, rfl, hs10m⟩ := hs10
      simp only [configParser, encode, encodeEntries]
      rw [parse_dict_ok_iff]
      refine ⟨_, ?_, rfl⟩
      simp only [configSchema]
      rw [parseFields_cons_ok]
      refine ⟨_, _, str_default_accepts _ _ _ s1 (by simp [lookupRaw, findVal, encode]), ?_, rfl⟩
      rw [parseFields_cons_ok]
      refine ⟨_, _, string_accepts _ _ s2 (by simp [lookupRaw, findVal, encode]), ?_, rfl⟩
      rw [parseFields_cons_ok]
      refine ⟨_, _, str_default_accepts _ _ _ s3 (by simp [lookupRaw, findVal, encode]), ?_, rfl⟩
      rw [parseFields_cons_ok]
      refine ⟨_, _, str_default_accepts _ _ _ s4 (by simp [lookupRaw, findVal, encode]), ?_, rfl⟩
      rw [parseFields_cons_ok]
      refine ⟨_, _, list_default_accepts _ _ ts5 (by simp [lookupRaw, findVal, encode]) hts5, ?_, rfl⟩
      rw [parseFields_cons_ok]
      refine ⟨_, _, list_default_accepts _ _ ts6 (by simp [lookupRaw, findVal, encode]) hts6, ?_, rfl⟩
      rw [parseFields_cons_ok]
      refine ⟨_, _, choice_default_accepts _ _ _ _ s7 (by simp [lookupRaw, findVal, encode]) hs7m, ?_, rfl⟩
      rw [parseFields_cons_ok]
      refine ⟨_, _, string_accepts _ _ s8 (by simp [lookupRaw, findVal, encode]), ?_, rfl⟩
      rw [parseFields_cons_ok]
      refine ⟨_, _, int_accepts _ _ n9 (by simp [lookupRaw, findVal, encode]), ?_, rfl⟩
      rw [parseFields_cons_ok]
      refine ⟨_, _, choice_default_accepts _ _ _ _ s10 (by simp [lookupRaw, findVal, encode]) hs10m, ?_, rfl⟩
      rfl

/-- Closed instance of C8: re-encoding the record parsed from the fully
explicit valid document and re-parsing returns the identical record. -/
theorem parse_idempotent_witness :
    configParser "w" [] (encode fullConf) = .ok fullConf :=
  parse_idempotent "w" fullDoc fullConf rfl

/-- Counterexample to C8 (and the nine-field premise) as stated: a
successfully parsed record carries ten named fields, so its fully explicit
re-encoding has ten fields, not nine. -/
theorem config_has_ten_fields :
    configParser "w" [] fullDoc = .ok fullConf ∧
    numFields fullConf = 10 ∧ numFields fullConf ≠ 9 :=
  ⟨rfl, rfl, by decide⟩

end Hlsclt
